import Mathlib

/-!
Shallow embedding of the two source files of the repository under
verification.

`src/backend/ai/imageContrast.py` defines `optimize_image_for_ocr`, which
loads an image, converts a copy to grayscale, computes the average
brightness from the 256-bucket histogram, inverts the RGB-converted image
when the average is below 128, applies `ImageOps.autocontrast`, and saves
the result while printing progress messages.  Images are modelled as a
mode together with the row-major list of pixels (each pixel a list of
8-bit channel values) plus a palette for `P` images.  Python float
division is modelled by exact division in `ℚ`; Python `print` calls are
modelled as an explicit log of messages; the `ZeroDivisionError` raised
when the image has no pixels, and the `NotImplementedError` / `OSError`
that `ImageOps._lut` (the helper behind `autocontrast`) raises for mode
`P` and for modes other than `L`/`RGB`, are modelled with `Except`.  Inside
`ImageOps.autocontrast` the C `int()` truncation is modelled by `Int.floor`
followed by the clamp to `[0, 255]`; the two agree after clamping because
they differ only on negative non-integers, which clamp to `0` either way.

`src/backend/ai/schemas.py` defines four pydantic `BaseModel` records.
Pydantic construction from raw field data is modelled by validators over a
dynamic `PyValue` type: a missing required field or a field of the wrong
type produces a structural `ValidationError` naming the field (pydantic
aggregates all field errors; we model the first one, which is all the
claims need).  Pydantic `BaseModel` declares no `frozen` configuration in
`schemas.py`, so instances are mutable by default: Python attribute
assignment `obj.field = value` is modelled as an explicit state update.
-/

set_option maxRecDepth 8192

namespace DbBuilder

/-- PIL image modes relevant to `optimize_image_for_ocr`: single-channel
grayscale `L`, palette `P`, three-channel `RGB`, and `RGBA` with alpha. -/
inductive Mode : Type
  | L
  | P
  | RGB
  | RGBA
deriving DecidableEq

/-- Channel count per pixel for each mode. -/
def Mode.channels : Mode → ℕ
  | .L => 1
  | .P => 1
  | .RGB => 3
  | .RGBA => 4

/-- A decoded PIL image: its mode, its pixels in row-major order (each
pixel a list of 8-bit channel values), and the palette used by `P` images
(empty otherwise). -/
structure Image : Type where
  mode : Mode
  data : List (List ℕ)
  palette : List (ℕ × ℕ × ℕ)
deriving DecidableEq

/-- Well-formedness of a decoded image: every pixel has exactly the number
of channels of the image's mode, every channel value is an 8-bit value,
and every palette entry is made of 8-bit values. -/
def Image.WF (img : Image) : Prop :=
  (∀ p ∈ img.data, p.length = img.mode.channels ∧ ∀ v ∈ p, v ≤ 255) ∧
  (∀ e ∈ img.palette, e.1 ≤ 255 ∧ e.2.1 ≤ 255 ∧ e.2.2 ≤ 255)

instance (img : Image) : Decidable img.WF := by
  unfold Image.WF; infer_instance

/-- PIL's grayscale luma for `convert("L")`:
`L = R * 299/1000 + G * 587/1000 + B * 114/1000`, computed in fixed point
as `(19595 R + 38470 G + 7471 B + 0x8000) >> 16`. -/
def luma (r g b : ℕ) : ℕ :=
  (19595 * r + 38470 * g + 7471 * b + 32768) / 65536

/-- Grayscale value of one pixel under `image.convert("L")`, by source
mode: `L` pixels are kept, `P` pixels go through the palette and then the
luma formula, `RGB`/`RGBA` pixels use the luma formula (alpha ignored). -/
def pixelToGray (palette : List (ℕ × ℕ × ℕ)) : Mode → List ℕ → ℕ
  | .L, p => p.headD 0
  | .P, p =>
      let e := palette.getD (p.headD 0) (0, 0, 0)
      luma e.1 e.2.1 e.2.2
  | .RGB, p => luma (p.getD 0 0) (p.getD 1 0) (p.getD 2 0)
  | .RGBA, p => luma (p.getD 0 0) (p.getD 1 0) (p.getD 2 0)

/-- The code's `image.convert('L')`: a single-channel grayscale image. -/
def Image.convertL (img : Image) : Image :=
  ⟨.L, img.data.map fun p => [pixelToGray img.palette img.mode p], []⟩

/-- One pixel under `image.convert("RGB")`, by source mode: `L` values are
replicated across the three channels, `P` pixels go through the palette,
`RGB` pixels are kept, and `RGBA` pixels drop the alpha channel. -/
def pixelToRGB (palette : List (ℕ × ℕ × ℕ)) : Mode → List ℕ → List ℕ
  | .L, p => [p.headD 0, p.headD 0, p.headD 0]
  | .P, p =>
      let e := palette.getD (p.headD 0) (0, 0, 0)
      [e.1, e.2.1, e.2.2]
  | .RGB, p => p
  | .RGBA, p => p.take 3

/-- The code's `image.convert('RGB')`: a three-channel image. -/
def Image.convertRGB (img : Image) : Image :=
  ⟨.RGB, img.data.map (pixelToRGB img.palette img.mode), []⟩

/-- The code's `gray.histogram()` on the single-channel grayscale image: a
256-bucket list whose bucket `i` counts the pixels with value `i`. -/
def Image.histogramL (img : Image) : List ℕ :=
  (List.range 256).map fun i => (img.data.map fun p => p.headD 0).count i

/-- The code's `sum(i * w for i, w in enumerate(histogram))`, with the
running index made explicit. -/
def weightedSum : ℕ → List ℕ → ℕ
  | _, [] => 0
  | i, w :: rest => i * w + weightedSum (i + 1) rest

/-- The code's `average_brightness = total_brightness / pixels` where
`pixels = sum(histogram)`, as exact rational division. -/
def averageBrightness (img : Image) : ℚ :=
  (weightedSum 0 img.convertL.histogramL : ℚ) / (img.convertL.histogramL.sum : ℚ)

/-- The grayscale values of an image's pixels, in order; `histogramL`
counts exactly these values. -/
def grayValues (img : Image) : List ℕ :=
  img.convertL.data.map fun p => p.headD 0

/-- The spec's formula for the derived value, written as it is worded:
the weighted mean of the grayscale histogram,
`sum(level * count_of_level for level in 0..255) / total_pixel_count`. -/
def specAverageBrightness (img : Image) : ℚ :=
  (∑ i in Finset.range 256, (i : ℚ) * ((grayValues img).count i : ℚ)) /
    (img.data.length : ℚ)

/-- `ImageOps.invert`: every channel value `v` becomes `255 - v`.  The
program only ever applies it to the RGB-converted image, a mode
`ImageOps._lut` supports, so no mode check is reachable here. -/
def invert (img : Image) : Image :=
  ⟨img.mode, img.data.map fun p => p.map fun v => 255 - v, img.palette⟩

/-- The channel-`c` values of an image's pixels, as read by
`ImageOps.autocontrast`'s per-layer histogram. -/
def channelValues (img : Image) (c : ℕ) : List ℕ :=
  img.data.map fun p => p.getD c 0

/-- The 256-bucket histogram of layer `c`, one of the per-layer slices of
`image.histogram()` inside `ImageOps.autocontrast`. -/
def histChannel (img : Image) (c : ℕ) : List ℕ :=
  (List.range 256).map fun i => (channelValues img c).count i

/-- `autocontrast`'s scan `for lo in range(256): if h[lo]: break`; when
every bucket is zero the loop leaves `lo = 255`. -/
def findLo (h : List ℕ) : ℕ :=
  match (List.range 256).find? (fun i => h.getD i 0 != 0) with
  | some i => i
  | none => 255

/-- `autocontrast`'s scan `for hi in range(255, -1, -1): if h[hi]: break`;
when every bucket is zero the loop leaves `hi = 0`. -/
def findHi (h : List ℕ) : ℕ :=
  match (List.range 256).reverse.find? (fun i => h.getD i 0 != 0) with
  | some i => i
  | none => 0

/-- The per-layer lookup table of `ImageOps.autocontrast` (with the
default `cutoff=0`, `ignore=None`): identity when `hi <= lo`, otherwise
`clamp(int(ix * scale + offset))` with `scale = 255 / (hi - lo)` and
`offset = -lo * scale`. -/
def autoLut (h : List ℕ) (ix : ℕ) : ℕ :=
  if findHi h ≤ findLo h then ix
  else
    (max 0 (min 255
      ⌊(ix : ℚ) * (255 / ((findHi h : ℚ) - (findLo h : ℚ))) +
        -(findLo h : ℚ) * (255 / ((findHi h : ℚ) - (findLo h : ℚ)))⌋)).toNat

/-- Application of the per-layer lookup tables to one pixel, channel `c`
onward: channel `j` goes through the table built from layer `j`'s
histogram, as `image.point(lut)` does with the concatenated tables. -/
def applyLuts (img : Image) : ℕ → List ℕ → List ℕ
  | _, [] => []
  | c, v :: rest => autoLut (histChannel img c) v :: applyLuts img (c + 1) rest

/-- The per-channel contrast stretch computed by `ImageOps.autocontrast`
(histogram, per-layer lookup tables, `image.point(lut)`), on the modes
`ImageOps._lut` supports. -/
def contrastStretch (img : Image) : Image :=
  ⟨img.mode, img.data.map fun p => applyLuts img 0 p, img.palette⟩

/-- The Python errors that can escape the routine after a successful
load: the `ZeroDivisionError` of `total_brightness / pixels` when the
histogram sums to zero, the `NotImplementedError` that `ImageOps._lut`
raises for mode `P` images, and the `OSError` it raises for modes other
than `L` and `RGB` (such as `RGBA`). -/
inductive PyError : Type
  | zeroDivisionError
  | notImplementedError
  | osError
deriving DecidableEq

/-- The code's `ImageOps.autocontrast(image)`, including the mode check
of `ImageOps._lut`: mode `P` raises `NotImplementedError`, modes `L` and
`RGB` get the lookup tables applied, and every other mode (here `RGBA`)
raises `OSError`. -/
def autocontrast (img : Image) : Except PyError Image :=
  match img.mode with
  | .P => .error .notImplementedError
  | .L => .ok (contrastStretch img)
  | .RGB => .ok (contrastStretch img)
  | .RGBA => .error .osError

/-- The `print` calls of `optimize_image_for_ocr`, in order of
appearance in the source. -/
inductive LogMsg : Type
  | averageBrightnessIs (value : ℚ)
  | detectedDarkModeInverting
  | alreadyLightModeSkipping
  | savedOptimizedImage
deriving DecidableEq

/-- The body of `optimize_image_for_ocr` between the load and the save:
grayscale conversion, histogram, average brightness, conditional
inversion of the RGB-converted image, and autocontrast, together with the
printed messages.  An exception raised inside `ImageOps.autocontrast`
propagates and nothing is saved (messages printed before the exception
are not modelled on the error path).  (The dead assignment
`brightness = scale = len(histogram)` of the source binds an unused value
and is omitted.) -/
def optimize_image_for_ocr (image : Image) :
    Except PyError (Image × List LogMsg) :=
  let gray := image.convertL
  let histogram := gray.histogramL
  let pixels := histogram.sum
  if pixels = 0 then .error .zeroDivisionError
  else
    let total_brightness := weightedSum 0 histogram
    let average_brightness : ℚ := (total_brightness : ℚ) / (pixels : ℚ)
    if average_brightness < 128 then
      (autocontrast (invert image.convertRGB)).map fun out =>
        (out, [.averageBrightnessIs average_brightness,
          .detectedDarkModeInverting, .savedOptimizedImage])
    else
      (autocontrast image).map fun out =>
        (out, [.averageBrightnessIs average_brightness,
          .alreadyLightModeSkipping, .savedOptimizedImage])

/-- An all-black single-channel image with `n` pixels. -/
def blackL (n : ℕ) : Image :=
  ⟨.L, List.replicate n [0], []⟩

/-- An all-white single-channel image with `n` pixels. -/
def whiteL (n : ℕ) : Image :=
  ⟨.L, List.replicate n [255], []⟩

/-- A single-channel image with `n` pixels at value 0 and `n` pixels at
value 255. -/
def halfL (n : ℕ) : Image :=
  ⟨.L, List.replicate n [0] ++ List.replicate n [255], []⟩

instance {ε α : Type} [DecidableEq ε] [DecidableEq α] :
    DecidableEq (Except ε α) := fun x y =>
  match x, y with
  | .error a, .error b =>
      if h : a = b then .isTrue (congrArg Except.error h)
      else .isFalse fun hh => h (by cases hh; rfl)
  | .ok a, .ok b =>
      if h : a = b then .isTrue (congrArg Except.ok h)
      else .isFalse fun hh => h (by cases hh; rfl)
  | .error _, .ok _ => .isFalse fun hh => Except.noConfusion hh
  | .ok _, .error _ => .isFalse fun hh => Except.noConfusion hh

/-- A dynamic Python value, as pydantic receives raw field data. -/
inductive PyValue : Type
  | str (s : String)
  | bool (b : Bool)
  | int (n : ℤ)
  | list (xs : List PyValue)
  | dict (fields : List (String × PyValue))

/-- A pydantic structural validation error: a required field is missing,
or a field's value has the wrong type (the error names the field and the
expected type). -/
inductive ValidationError : Type
  | missing (field : String)
  | wrongType (field : String) (expected : String)
deriving DecidableEq

/-- Read a required `str` field from raw field data. -/
def requireStr (fields : List (String × PyValue)) (nm : String) :
    Except ValidationError String :=
  match fields.lookup nm with
  | none => .error (.missing nm)
  | some (.str s) => .ok s
  | some _ => .error (.wrongType nm "str")

/-- Read an optional `bool` field from raw field data, with its declared
default when the field is absent. -/
def optionalBool (fields : List (String × PyValue)) (nm : String)
    (dflt : Bool) : Except ValidationError Bool :=
  match fields.lookup nm with
  | none => .ok dflt
  | some (.bool b) => .ok b
  | some _ => .error (.wrongType nm "bool")

/-- Read a required list-valued field from raw field data. -/
def requireList (fields : List (String × PyValue)) (nm : String) :
    Except ValidationError (List PyValue) :=
  match fields.lookup nm with
  | none => .error (.missing nm)
  | some (.list xs) => .ok xs
  | some _ => .error (.wrongType nm "list")

/-- Validate every element of a list-valued field. -/
def validateEach (f : PyValue → Except ValidationError α) :
    List PyValue → Except ValidationError (List α)
  | [] => .ok []
  | v :: rest => do
    let a ← f v
    let tl ← validateEach f rest
    .ok (a :: tl)

/-- `class Column(BaseModel)` of `schemas.py`. -/
structure Column : Type where
  name : String
  type : String
  is_primary_key : Bool
  is_foreign_key : Bool
deriving DecidableEq

/-- Pydantic construction of a `Column` from raw field data: `name` and
`type` are required `str` fields; `is_primary_key` and `is_foreign_key`
are `bool` fields defaulting to `False`. -/
def Column.validate (fields : List (String × PyValue)) :
    Except ValidationError Column := do
  let nm ← requireStr fields "name"
  let ty ← requireStr fields "type"
  let pk ← optionalBool fields "is_primary_key" false
  let fk ← optionalBool fields "is_foreign_key" false
  .ok ⟨nm, ty, pk, fk⟩

/-- Validate one element of a `columns` list: it must be a record. -/
def Column.validateValue : PyValue → Except ValidationError Column
  | .dict fields => Column.validate fields
  | _ => .error (.wrongType "columns" "dict")

/-- `class Table(BaseModel)` of `schemas.py`. -/
structure Table : Type where
  name : String
  columns : List Column
deriving DecidableEq

/-- Pydantic construction of a `Table` from raw field data. -/
def Table.validate (fields : List (String × PyValue)) :
    Except ValidationError Table := do
  let nm ← requireStr fields "name"
  let colsRaw ← requireList fields "columns"
  let cols ← validateEach Column.validateValue colsRaw
  .ok ⟨nm, cols⟩

/-- Validate one element of a `tables` list: it must be a record. -/
def Table.validateValue : PyValue → Except ValidationError Table
  | .dict fields => Table.validate fields
  | _ => .error (.wrongType "tables" "dict")

/-- `class Relationship(BaseModel)` of `schemas.py`.  The `type` field is
a free-form string; the enumeration "1:1" / "1:N" / "N:M" lives only in a
source comment and is not enforced. -/
structure Relationship : Type where
  from_table : String
  from_column : String
  to_table : String
  to_column : String
  type : String
deriving DecidableEq

/-- Pydantic construction of a `Relationship` from raw field data: five
required `str` fields. -/
def Relationship.validate (fields : List (String × PyValue)) :
    Except ValidationError Relationship := do
  let ft ← requireStr fields "from_table"
  let fc ← requireStr fields "from_column"
  let tt ← requireStr fields "to_table"
  let tc ← requireStr fields "to_column"
  let ty ← requireStr fields "type"
  .ok ⟨ft, fc, tt, tc, ty⟩

/-- Validate one element of a `relationships` list: it must be a record. -/
def Relationship.validateValue : PyValue → Except ValidationError Relationship
  | .dict fields => Relationship.validate fields
  | _ => .error (.wrongType "relationships" "dict")

/-- `class DatabaseSchema(BaseModel)` of `schemas.py`. -/
structure DatabaseSchema : Type where
  tables : List Table
  relationships : List Relationship
deriving DecidableEq

/-- Pydantic construction of a `DatabaseSchema` from raw field data: the
two required list fields are validated element by element; no
cross-referential check appears anywhere in `schemas.py`. -/
def DatabaseSchema.validate (fields : List (String × PyValue)) :
    Except ValidationError DatabaseSchema := do
  let tablesRaw ← requireList fields "tables"
  let tbls ← validateEach Table.validateValue tablesRaw
  let relsRaw ← requireList fields "relationships"
  let rels ← validateEach Relationship.validateValue relsRaw
  .ok ⟨tbls, rels⟩

/-- Raw field data carrying exactly a `Column`'s fields. -/
def Column.encode (c : Column) : PyValue :=
  .dict [("name", .str c.name), ("type", .str c.type),
    ("is_primary_key", .bool c.is_primary_key),
    ("is_foreign_key", .bool c.is_foreign_key)]

/-- Raw field data carrying exactly a `Table`'s fields. -/
def Table.encode (t : Table) : PyValue :=
  .dict [("name", .str t.name), ("columns", .list (t.columns.map Column.encode))]

/-- Raw field data carrying exactly a `Relationship`'s fields. -/
def Relationship.encode (r : Relationship) : PyValue :=
  .dict [("from_table", .str r.from_table), ("from_column", .str r.from_column),
    ("to_table", .str r.to_table), ("to_column", .str r.to_column),
    ("type", .str r.type)]

/-- Raw field data carrying exactly a `DatabaseSchema`'s fields. -/
def DatabaseSchema.encodeFields (s : DatabaseSchema) :
    List (String × PyValue) :=
  [("tables", .list (s.tables.map Table.encode)),
    ("relationships", .list (s.relationships.map Relationship.encode))]

/-- Python attribute assignment `column.name = v` on a constructed
`Column`: pydantic `BaseModel` declares no `frozen=True` configuration in
`schemas.py`, so instances are mutable by default and assignment replaces
the stored field value.  Modelled as an explicit state update. -/
def Column.setAttrName (c : Column) (v : String) : Column :=
  { c with name := v }

theorem sum_map_add {α : Type} (L : List α) (f g : α → ℕ) :
    (L.map fun x => f x + g x).sum = (L.map f).sum + (L.map g).sum := by
  induction L with
  | nil => simp
  | cons x t ih => simp [ih]; omega

theorem sum_map_onehot_zero (f : ℕ → ℕ) (n v : ℕ) (hv : n ≤ v) :
    ((List.range n).map fun i => if i = v then f i else 0).sum = 0 := by
  apply List.sum_eq_zero
  intro x hx
  rcases List.mem_map.1 hx with ⟨i, hi, rfl⟩
  have : i < n := List.mem_range.1 hi
  rw [if_neg (by omega)]

theorem sum_map_onehot (f : ℕ → ℕ) :
    ∀ n v : ℕ, v < n →
      ((List.range n).map fun i => if i = v then f i else 0).sum = f v := by
  intro n
  induction n with
  | zero => intro v hv; omega
  | succ m ih =>
    intro v hv
    rw [List.range_succ, List.map_append, List.sum_append]
    rcases Nat.lt_or_ge v m with hlt | hge
    · rw [ih v hlt]
      simp [Nat.ne_of_gt hlt]
    · have hvm : v = m := by omega
      subst hvm
      rw [sum_map_onehot_zero f v v le_rfl]
      simp

theorem hist_sum_eq_length (l : List ℕ) (hl : ∀ v ∈ l, v < 256) :
    ((List.range 256).map fun i => l.count i).sum = l.length := by
  induction l with
  | nil => simp
  | cons v t ih =>
    have hv : v < 256 := hl v (List.mem_cons_self v t)
    have ht : ∀ w ∈ t, w < 256 := fun w hw => hl w (List.mem_cons_of_mem v hw)
    have hcount : ∀ i : ℕ, (v :: t).count i = t.count i + if i = v then 1 else 0 := by
      intro i
      rw [List.count_cons]
      rcases eq_or_ne i v with h | h
      · subst h
        rw [if_pos rfl, if_pos (beq_self_eq_true i)]
      · have hvi : ¬((v == i) = true) := by
          simp only [beq_iff_eq]
          exact Ne.symm h
        rw [if_neg h, if_neg hvi]
    simp only [hcount]
    rw [sum_map_add, ih ht, sum_map_onehot (fun _ => 1) 256 v hv]
    simp

theorem weightedSum_range'_eq (g : ℕ → ℕ) :
    ∀ n a : ℕ, weightedSum a ((List.range' a n).map g) =
      ((List.range' a n).map fun i => i * g i).sum := by
  intro n
  induction n with
  | zero => intro a; simp [weightedSum]
  | succ m ih =>
    intro a
    rw [List.range'_succ, List.map_cons, List.map_cons, List.sum_cons]
    rw [weightedSum, ih (a + 1)]

theorem weightedSum_map_range (g : ℕ → ℕ) (n : ℕ) :
    weightedSum 0 ((List.range n).map g) =
      ((List.range n).map fun i => i * g i).sum := by
  rw [List.range_eq_range']
  exact weightedSum_range'_eq g n 0

theorem sum_mul_count (l : List ℕ) (hl : ∀ v ∈ l, v < 256) :
    ((List.range 256).map fun i => i * l.count i).sum = l.sum := by
  induction l with
  | nil => simp
  | cons v t ih =>
    have hv : v < 256 := hl v (List.mem_cons_self v t)
    have ht : ∀ w ∈ t, w < 256 := fun w hw => hl w (List.mem_cons_of_mem v hw)
    have hcount : ∀ i : ℕ,
        i * (v :: t).count i = i * t.count i + if i = v then i else 0 := by
      intro i
      rw [List.count_cons]
      rcases eq_or_ne i v with h | h
      · subst h
        rw [if_pos rfl, if_pos (beq_self_eq_true i)]
        ring
      · have hvi : ¬((v == i) = true) := by
          simp only [beq_iff_eq]
          exact Ne.symm h
        rw [if_neg h, if_neg hvi]
        ring
    simp only [hcount]
    rw [sum_map_add, ih ht, sum_map_onehot (fun i => i) 256 v hv]
    simp [Nat.add_comm]

theorem list_range_map_sum {M : Type} [AddCommMonoid M] (f : ℕ → M) (n : ℕ) :
    ((List.range n).map f).sum = ∑ i in Finset.range n, f i := by
  induction n with
  | zero => simp
  | succ m ih =>
    rw [List.range_succ, List.map_append, List.sum_append, ih,
      Finset.sum_range_succ]
    simp

theorem luma_le (r g b : ℕ) (hr : r ≤ 255) (hg : g ≤ 255) (hb : b ≤ 255) :
    luma r g b ≤ 255 := by
  unfold luma
  have : 19595 * r + 38470 * g + 7471 * b + 32768 < 65536 * 256 := by
    nlinarith
  omega

theorem pixelToGray_le (palette : List (ℕ × ℕ × ℕ)) (mode : Mode)
    (p : List ℕ) (hp : ∀ v ∈ p, v ≤ 255)
    (hpal : ∀ e ∈ palette, e.1 ≤ 255 ∧ e.2.1 ≤ 255 ∧ e.2.2 ≤ 255) :
    pixelToGray palette mode p ≤ 255 := by
  have hhead : p.headD 0 ≤ 255 := by
    cases p with
    | nil => simp
    | cons v t => exact hp v (List.mem_cons_self v t)
  have hget : ∀ i : ℕ, p.getD i 0 ≤ 255 := by
    intro i
    rcases Nat.lt_or_ge i p.length with hi | hi
    · rw [List.getD_eq_getElem?_getD, List.getElem?_eq_getElem hi]
      exact hp _ (List.getElem_mem hi)
    · rw [List.getD_eq_getElem?_getD, List.getElem?_eq_none hi]
      simp
  cases mode with
  | L => exact hhead
  | P =>
    show luma (palette.getD (p.headD 0) (0, 0, 0)).1 _ _ ≤ 255
    have : (palette.getD (p.headD 0) (0, 0, 0)).1 ≤ 255 ∧
        (palette.getD (p.headD 0) (0, 0, 0)).2.1 ≤ 255 ∧
        (palette.getD (p.headD 0) (0, 0, 0)).2.2 ≤ 255 := by
      rcases Nat.lt_or_ge (p.headD 0) palette.length with hi | hi
      · rw [List.getD_eq_getElem?_getD, List.getElem?_eq_getElem hi]
        exact hpal _ (List.getElem_mem hi)
      · rw [List.getD_eq_getElem?_getD, List.getElem?_eq_none hi]
        simp
    exact luma_le _ _ _ this.1 this.2.1 this.2.2
  | RGB => exact luma_le _ _ _ (hget 0) (hget 1) (hget 2)
  | RGBA => exact luma_le _ _ _ (hget 0) (hget 1) (hget 2)

theorem grayValues_le (img : Image) (hwf : img.WF) :
    ∀ v ∈ grayValues img, v ≤ 255 := by
  intro v hv
  unfold grayValues Image.convertL at hv
  simp only [List.map_map, List.mem_map] at hv
  rcases hv with ⟨p, hp, rfl⟩
  show pixelToGray img.palette img.mode p ≤ 255
  exact pixelToGray_le img.palette img.mode p (hwf.1 p hp).2 hwf.2

theorem grayValues_lt (img : Image) (hwf : img.WF) :
    ∀ v ∈ grayValues img, v < 256 :=
  fun v hv => Nat.lt_succ_of_le (grayValues_le img hwf v hv)

theorem grayValues_length (img : Image) :
    (grayValues img).length = img.data.length := by
  unfold grayValues Image.convertL
  simp

theorem histogramL_eq (img : Image) :
    img.convertL.histogramL =
      (List.range 256).map fun i => (grayValues img).count i := rfl

theorem pixels_eq_length (img : Image) (hwf : img.WF) :
    img.convertL.histogramL.sum = img.data.length := by
  rw [histogramL_eq, hist_sum_eq_length (grayValues img) (grayValues_lt img hwf),
    grayValues_length]

theorem total_eq_graySum (img : Image) (hwf : img.WF) :
    weightedSum 0 img.convertL.histogramL = (grayValues img).sum := by
  rw [histogramL_eq, weightedSum_map_range,
    sum_mul_count (grayValues img) (grayValues_lt img hwf)]

theorem averageBrightness_eq (img : Image) (hwf : img.WF) :
    averageBrightness img =
      ((grayValues img).sum : ℚ) / (img.data.length : ℚ) := by
  unfold averageBrightness
  rw [total_eq_graySum img hwf, pixels_eq_length img hwf]

theorem blackL_WF (n : ℕ) : (blackL n).WF := by
  constructor
  · intro p hp
    rw [List.eq_of_mem_replicate hp]
    simp [blackL, Mode.channels]
  · intro e he
    simp [blackL] at he

theorem whiteL_WF (n : ℕ) : (whiteL n).WF := by
  constructor
  · intro p hp
    rw [List.eq_of_mem_replicate hp]
    simp [whiteL, Mode.channels]
  · intro e he
    simp [whiteL] at he

theorem halfL_WF (n : ℕ) : (halfL n).WF := by
  constructor
  · intro p hp
    rcases List.mem_append.1 hp with h | h <;>
      rw [List.eq_of_mem_replicate h] <;> simp [halfL, Mode.channels]
  · intro e he
    simp [halfL] at he

theorem grayValues_blackL (n : ℕ) : grayValues (blackL n) = List.replicate n 0 := by
  unfold grayValues Image.convertL blackL
  simp [pixelToGray]

theorem grayValues_whiteL (n : ℕ) : grayValues (whiteL n) = List.replicate n 255 := by
  unfold grayValues Image.convertL whiteL
  simp [pixelToGray]

theorem grayValues_halfL (n : ℕ) :
    grayValues (halfL n) = List.replicate n 0 ++ List.replicate n 255 := by
  unfold grayValues Image.convertL halfL
  simp [pixelToGray]

theorem averageBrightness_blackL (n : ℕ) (_hn : 0 < n) :
    averageBrightness (blackL n) = 0 := by
  rw [averageBrightness_eq (blackL n) (blackL_WF n), grayValues_blackL]
  simp [blackL]

theorem averageBrightness_whiteL (n : ℕ) (hn : 0 < n) :
    averageBrightness (whiteL n) = 255 := by
  rw [averageBrightness_eq (whiteL n) (whiteL_WF n), grayValues_whiteL]
  have hn' : ((n : ℚ)) ≠ 0 := by
    exact_mod_cast Nat.pos_iff_ne_zero.1 hn
  simp only [List.sum_replicate, smul_eq_mul, whiteL, List.length_replicate]
  push_cast
  field_simp

theorem averageBrightness_halfL (n : ℕ) (hn : 0 < n) :
    averageBrightness (halfL n) = 255 / 2 := by
  rw [averageBrightness_eq (halfL n) (halfL_WF n), grayValues_halfL]
  have hn' : ((n : ℚ)) ≠ 0 := by
    exact_mod_cast Nat.pos_iff_ne_zero.1 hn
  simp only [List.sum_append, List.sum_replicate, smul_eq_mul, halfL,
    List.length_append, List.length_replicate]
  push_cast
  field_simp
  ring

theorem histogramL_sum_nil (img : Image) (h : img.data = []) :
    img.convertL.histogramL.sum = 0 := by
  unfold Image.histogramL Image.convertL
  rw [h]
  apply List.sum_eq_zero
  intro x hx
  rcases List.mem_map.1 hx with ⟨i, _, rfl⟩
  simp

theorem histogramL_sum_ne (img : Image) (hwf : img.WF)
    (hn : 0 < img.data.length) : img.convertL.histogramL.sum ≠ 0 := by
  rw [pixels_eq_length img hwf]
  omega

theorem optimize_zero (img : Image) (hpix : img.convertL.histogramL.sum = 0) :
    optimize_image_for_ocr img = .error .zeroDivisionError := by
  unfold optimize_image_for_ocr
  rw [if_pos hpix]

theorem autocontrast_of_L (img : Image) (h : img.mode = Mode.L) :
    autocontrast img = .ok (contrastStretch img) := by
  unfold autocontrast
  rw [h]

theorem autocontrast_of_RGB (img : Image) (h : img.mode = Mode.RGB) :
    autocontrast img = .ok (contrastStretch img) := by
  unfold autocontrast
  rw [h]

theorem autocontrast_of_RGBA (img : Image) (h : img.mode = Mode.RGBA) :
    autocontrast img = .error .osError := by
  unfold autocontrast
  rw [h]

theorem autocontrast_of_P (img : Image) (h : img.mode = Mode.P) :
    autocontrast img = .error .notImplementedError := by
  unfold autocontrast
  rw [h]

theorem autocontrast_ne_zeroDiv (img : Image) :
    autocontrast img ≠ .error .zeroDivisionError := by
  unfold autocontrast
  cases h : img.mode <;> simp

theorem contrastStretch_mode (img : Image) :
    (contrastStretch img).mode = img.mode := rfl

theorem optimize_dark (img : Image) (hpix : img.convertL.histogramL.sum ≠ 0)
    (havg : averageBrightness img < 128) :
    optimize_image_for_ocr img =
      .ok (contrastStretch (invert img.convertRGB),
        [.averageBrightnessIs (averageBrightness img),
          .detectedDarkModeInverting, .savedOptimizedImage]) := by
  unfold averageBrightness at havg
  unfold optimize_image_for_ocr
  rw [if_neg hpix, if_pos havg, autocontrast_of_RGB (invert img.convertRGB) rfl]
  rfl

theorem optimize_light (img : Image) (hpix : img.convertL.histogramL.sum ≠ 0)
    (havg : ¬averageBrightness img < 128) :
    optimize_image_for_ocr img =
      (autocontrast img).map fun out =>
        (out, [.averageBrightnessIs (averageBrightness img),
          .alreadyLightModeSkipping, .savedOptimizedImage]) := by
  unfold averageBrightness at havg
  unfold optimize_image_for_ocr
  rw [if_neg hpix, if_neg havg]
  rfl

theorem optimize_light_ok (img : Image) (hpix : img.convertL.histogramL.sum ≠ 0)
    (havg : ¬averageBrightness img < 128)
    (hmode : img.mode = Mode.L ∨ img.mode = Mode.RGB) :
    optimize_image_for_ocr img =
      .ok (contrastStretch img,
        [.averageBrightnessIs (averageBrightness img),
          .alreadyLightModeSkipping, .savedOptimizedImage]) := by
  rw [optimize_light img hpix havg]
  rcases hmode with h | h
  · rw [autocontrast_of_L img h]
    rfl
  · rw [autocontrast_of_RGB img h]
    rfl

theorem histChannel_getD (img : Image) (c i : ℕ) (hi : i < 256) :
    (histChannel img c).getD i 0 = (channelValues img c).count i := by
  unfold histChannel
  rw [List.getD_eq_getElem?_getD, List.getElem?_map, List.getElem?_range hi]
  rfl

theorem findLo_of_first (h : List ℕ) (h0 : h.getD 0 0 ≠ 0) : findLo h = 0 := by
  unfold findLo
  rw [show (256 : ℕ) = 255 + 1 from rfl, List.range_succ_eq_map,
    List.find?_cons_of_pos _ (by simpa using h0)]

theorem findHi_of_last (h : List ℕ) (h255 : h.getD 255 0 ≠ 0) :
    findHi h = 255 := by
  unfold findHi
  rw [show (256 : ℕ) = 255 + 1 from rfl, List.range_succ, List.reverse_append,
    List.reverse_singleton, List.singleton_append,
    List.find?_cons_of_pos _ (by simpa using h255)]

theorem findLo_spec (h : List ℕ) : findLo h = 255 ∨ h.getD (findLo h) 0 ≠ 0 := by
  unfold findLo
  cases hf : (List.range 256).find? (fun i => h.getD i 0 != 0) with
  | none => left; rfl
  | some i =>
    right
    have := List.find?_some hf
    simpa using this

theorem findHi_spec (h : List ℕ) : findHi h = 0 ∨ h.getD (findHi h) 0 ≠ 0 := by
  unfold findHi
  cases hf : (List.range 256).reverse.find? (fun i => h.getD i 0 != 0) with
  | none => left; rfl
  | some i =>
    right
    have := List.find?_some hf
    simpa using this

theorem findLo_le (h : List ℕ) : findLo h ≤ 255 := by
  unfold findLo
  cases hf : (List.range 256).find? (fun i => h.getD i 0 != 0) with
  | none => exact le_rfl
  | some i =>
    show i ≤ 255
    have := List.mem_of_find?_eq_some hf
    have hlt : i < 256 := List.mem_range.1 this
    omega

theorem findHi_le (h : List ℕ) : findHi h ≤ 255 := by
  unfold findHi
  cases hf : (List.range 256).reverse.find? (fun i => h.getD i 0 != 0) with
  | none => exact Nat.zero_le 255
  | some i =>
    show i ≤ 255
    have := List.mem_of_find?_eq_some hf
    rw [List.mem_reverse] at this
    have hlt : i < 256 := List.mem_range.1 this
    omega

theorem autoLut_id_of_le (h : List ℕ) (hle : findHi h ≤ findLo h) (v : ℕ) :
    autoLut h v = v := by
  unfold autoLut
  rw [if_pos hle]

theorem autoLut_id_of_full (h : List ℕ) (h0 : h.getD 0 0 ≠ 0)
    (h255 : h.getD 255 0 ≠ 0) (v : ℕ) (hv : v ≤ 255) : autoLut h v = v := by
  unfold autoLut
  rw [findLo_of_first h h0, findHi_of_last h h255, if_neg (by omega)]
  have hval : (v : ℚ) * (255 / (((255 : ℕ) : ℚ) - ((0 : ℕ) : ℚ))) +
      -((0 : ℕ) : ℚ) * (255 / (((255 : ℕ) : ℚ) - ((0 : ℕ) : ℚ))) = (v : ℚ) := by
    push_cast
    norm_num
  rw [hval, Int.floor_natCast]
  have hmin : min (255 : ℤ) (v : ℤ) = (v : ℤ) := by
    apply min_eq_right
    exact_mod_cast hv
  have hmax : max (0 : ℤ) (v : ℤ) = (v : ℤ) := by
    apply max_eq_right
    exact Int.natCast_nonneg v
  rw [hmin, hmax, Int.toNat_natCast]

theorem applyLuts_id (img : Image) :
    ∀ (p : List ℕ) (c : ℕ),
      (∀ j v, c ≤ j → j < c + p.length → v ∈ p →
        autoLut (histChannel img j) v = v) →
      applyLuts img c p = p := by
  intro p
  induction p with
  | nil => intro c _; rfl
  | cons v rest ih =>
    intro c hlut
    unfold applyLuts
    rw [hlut c v le_rfl (by simp) (List.mem_cons_self v rest)]
    rw [ih (c + 1) fun j w hj1 hj2 hw =>
      hlut j w (by omega) (by simp at hj2 ⊢; omega) (List.mem_cons_of_mem v hw)]

theorem mem_channelValues_of_getD_ne (img : Image) (c i : ℕ) (hi : i < 256)
    (hne : (histChannel img c).getD i 0 ≠ 0) : i ∈ channelValues img c := by
  rw [histChannel_getD img c i hi] at hne
  exact List.count_pos_iff.1 (Nat.pos_of_ne_zero hne)

theorem contrastStretch_eq_of_full (img : Image) (hwf : img.WF)
    (hfull : ∀ c, c < img.mode.channels →
      0 ∈ channelValues img c ∧ 255 ∈ channelValues img c) :
    contrastStretch img = img := by
  unfold contrastStretch
  have hdata : img.data.map (fun p => applyLuts img 0 p) = img.data := by
    apply List.map_congr_left ?_ |>.trans (List.map_id img.data)
    intro p hp
    apply applyLuts_id
    intro j v hj0 hjlen hvp
    have hlen : p.length = img.mode.channels := (hwf.1 p hp).1
    have hj : j < img.mode.channels := by
      rw [← hlen]
      simpa using hjlen
    have h0 : (histChannel img j).getD 0 0 ≠ 0 := by
      rw [histChannel_getD img j 0 (by norm_num)]
      exact Nat.pos_iff_ne_zero.1 (List.count_pos_iff.2 (hfull j hj).1)
    have h255 : (histChannel img j).getD 255 0 ≠ 0 := by
      rw [histChannel_getD img j 255 (by norm_num)]
      exact Nat.pos_iff_ne_zero.1 (List.count_pos_iff.2 (hfull j hj).2)
    exact autoLut_id_of_full _ h0 h255 v ((hwf.1 p hp).2 v hvp)
  rw [hdata]

theorem contrastStretch_eq_of_uniform (img : Image) (u : ℕ) (hwf : img.WF)
    (huni : ∀ p ∈ img.data, ∀ v ∈ p, v = u) : contrastStretch img = img := by
  unfold contrastStretch
  have hvals : ∀ c, c < img.mode.channels → ∀ w ∈ channelValues img c, w = u := by
    intro c hc w hw
    unfold channelValues at hw
    rcases List.mem_map.1 hw with ⟨p, hp, rfl⟩
    have hlen : p.length = img.mode.channels := (hwf.1 p hp).1
    have hcl : c < p.length := by omega
    rw [List.getD_eq_getElem?_getD, List.getElem?_eq_getElem hcl]
    exact huni p hp _ (List.getElem_mem hcl)
  have hdata : img.data.map (fun p => applyLuts img 0 p) = img.data := by
    apply List.map_congr_left ?_ |>.trans (List.map_id img.data)
    intro p hp
    apply applyLuts_id
    intro j v hj0 hjlen _
    have hlen : p.length = img.mode.channels := (hwf.1 p hp).1
    have hj : j < img.mode.channels := by
      rw [← hlen]
      simpa using hjlen
    apply autoLut_id_of_le
    have hhi := findHi_spec (histChannel img j)
    have hlo := findLo_spec (histChannel img j)
    rcases hhi with hhi0 | hhine
    · rw [hhi0]
      exact Nat.zero_le _
    · have hhiu : findHi (histChannel img j) = u :=
        hvals j hj _ (mem_channelValues_of_getD_ne img j _
          (Nat.lt_succ_of_le (findHi_le _)) hhine)
      rcases hlo with hlo255 | hlone
      · rw [hlo255, hhiu]
        calc u = findHi (histChannel img j) := hhiu.symm
        _ ≤ 255 := findHi_le _
      · have hlou : findLo (histChannel img j) = u :=
          hvals j hj _ (mem_channelValues_of_getD_ne img j _
            (Nat.lt_succ_of_le (findLo_le _)) hlone)
        rw [hhiu, hlou]
  rw [hdata]

theorem map_sub_involution : ∀ p : List ℕ, (∀ v ∈ p, v ≤ 255) →
    ((p.map fun v => 255 - v).map fun v => 255 - v) = p := by
  intro p
  induction p with
  | nil => intro _; rfl
  | cons v t ih =>
    intro h
    simp only [List.map_cons, List.cons.injEq]
    constructor
    · have := h v (List.mem_cons_self v t)
      omega
    · exact ih fun w hw => h w (List.mem_cons_of_mem v hw)

theorem invert_invert (img : Image) (hb : ∀ p ∈ img.data, ∀ v ∈ p, v ≤ 255) :
    invert (invert img) = img := by
  show Image.mk img.mode
    ((img.data.map fun p => p.map fun v => 255 - v).map fun p =>
      p.map fun v => 255 - v) img.palette = img
  rw [List.map_map]
  have hdata : img.data.map
      ((fun p : List ℕ => p.map fun v => 255 - v) ∘ fun p => p.map fun v => 255 - v) =
      img.data := by
    apply (List.map_congr_left ?_).trans (List.map_id img.data)
    intro p hp
    exact map_sub_involution p (hb p hp)
  rw [hdata]

theorem pixelToRGB_length (palette : List (ℕ × ℕ × ℕ)) (mode : Mode)
    (p : List ℕ) (hp : p.length = mode.channels) :
    (pixelToRGB palette mode p).length = 3 := by
  cases mode <;> simp [pixelToRGB, Mode.channels] at hp ⊢ <;> omega

theorem averageBrightness_nonneg (img : Image) : 0 ≤ averageBrightness img := by
  unfold averageBrightness
  positivity

theorem averageBrightness_le (img : Image) (hwf : img.WF) :
    averageBrightness img ≤ 255 := by
  rw [averageBrightness_eq img hwf]
  rcases Nat.eq_zero_or_pos img.data.length with h0 | hp
  · rw [h0]
    simp
  · rw [div_le_iff₀ (by exact_mod_cast hp)]
    have hsum : (grayValues img).sum ≤ (grayValues img).length * 255 := by
      have := List.sum_le_card_nsmul (grayValues img) 255 (grayValues_le img hwf)
      simpa [smul_eq_mul] using this
    rw [grayValues_length] at hsum
    exact_mod_cast Nat.le_trans hsum (by omega)

theorem averageBrightness_eq_spec (img : Image) (hwf : img.WF) :
    averageBrightness img = specAverageBrightness img := by
  unfold averageBrightness specAverageBrightness
  rw [pixels_eq_length img hwf, histogramL_eq, weightedSum_map_range,
    list_range_map_sum]
  congr 1
  push_cast
  rfl

theorem contrastStretch_whiteL (n : ℕ) : contrastStretch (whiteL n) = whiteL n := by
  apply contrastStretch_eq_of_uniform (whiteL n) 255 (whiteL_WF n)
  intro p hp v hv
  rw [List.eq_of_mem_replicate hp] at hv
  simpa using hv

theorem column_validate_roundtrip (c : Column) :
    Column.validateValue (Column.encode c) = .ok c := by
  unfold Column.validateValue Column.encode Column.validate requireStr optionalBool
  simp [List.lookup]
  rfl

theorem validateEach_map {α : Type} (f : PyValue → Except ValidationError α)
    (enc : α → PyValue) (l : List α) (h : ∀ x ∈ l, f (enc x) = .ok x) :
    validateEach f (l.map enc) = .ok l := by
  induction l with
  | nil => rfl
  | cons x t ih =>
    rw [List.map_cons]
    unfold validateEach
    rw [h x (List.mem_cons_self x t), ih fun y hy => h y (List.mem_cons_of_mem x hy)]
    rfl

theorem table_validate_roundtrip (t : Table) :
    Table.validateValue (Table.encode t) = .ok t := by
  unfold Table.validateValue Table.encode Table.validate requireStr requireList
  simp [List.lookup]
  show Except.bind
      (validateEach Column.validateValue (List.map Column.encode t.columns))
      (fun cols => Except.ok { name := t.name, columns := cols }) = Except.ok t
  rw [validateEach_map Column.validateValue Column.encode t.columns
    (fun c _ => column_validate_roundtrip c)]
  rfl

theorem relationship_validate_roundtrip (r : Relationship) :
    Relationship.validateValue (Relationship.encode r) = .ok r := by
  unfold Relationship.validateValue Relationship.encode Relationship.validate requireStr
  simp [List.lookup]
  rfl

theorem databaseSchema_validate_roundtrip (s : DatabaseSchema) :
    DatabaseSchema.validate (DatabaseSchema.encodeFields s) = .ok s := by
  unfold DatabaseSchema.validate DatabaseSchema.encodeFields requireList
  simp [List.lookup]
  show Except.bind
      (validateEach Table.validateValue (List.map Table.encode s.tables))
      (fun tbls => Except.bind
        (validateEach Relationship.validateValue
          (List.map Relationship.encode s.relationships))
        (fun rels => Except.ok { tables := tbls, relationships := rels })) =
      Except.ok s
  rw [validateEach_map Table.validateValue Table.encode s.tables
      (fun t _ => table_validate_roundtrip t),
    validateEach_map Relationship.validateValue Relationship.encode s.relationships
      (fun r _ => relationship_validate_roundtrip r)]
  rfl

/-- Claim C1: for every decodable input image, the inversion branch of
`optimize_image_for_ocr` is taken if and only if the computed
`average_brightness` is strictly less than 128 (each channel value `v`
replaced by `255 - v` on the RGB-converted image); otherwise pixel values
are left unchanged before the contrast-stretch step: the result is
exactly `autocontrast` applied to the unchanged image (which itself
raises on the modes `ImageOps._lut` rejects).  In particular, for an
image with `n` pixels at grayscale 0 and `n` at 255 the average is
127.5 < 128 and the branch is taken. -/
theorem C1_inversion_branch_iff (img : Image) (hwf : img.WF)
    (hn : 0 < img.data.length) :
    (averageBrightness img < 128 →
      optimize_image_for_ocr img =
        .ok (contrastStretch (invert img.convertRGB),
          [.averageBrightnessIs (averageBrightness img),
            .detectedDarkModeInverting, .savedOptimizedImage])) ∧
    (¬averageBrightness img < 128 →
      optimize_image_for_ocr img =
        (autocontrast img).map fun out =>
          (out, [.averageBrightnessIs (averageBrightness img),
            .alreadyLightModeSkipping, .savedOptimizedImage])) ∧
    (∀ out log, optimize_image_for_ocr img = .ok (out, log) →
      (LogMsg.detectedDarkModeInverting ∈ log ↔ averageBrightness img < 128)) ∧
    ((invert img.convertRGB).data =
      img.convertRGB.data.map fun p => p.map fun v => 255 - v) ∧
    (∀ n, 0 < n → averageBrightness (halfL n) = 255 / 2 ∧
      averageBrightness (halfL n) < 128) := by
  have hpix := histogramL_sum_ne img hwf hn
  refine ⟨fun havg => optimize_dark img hpix havg,
    fun havg => optimize_light img hpix havg, ?_, rfl, ?_⟩
  · intro out log hok
    by_cases havg : averageBrightness img < 128
    · rw [optimize_dark img hpix havg] at hok
      simp only [Except.ok.injEq, Prod.mk.injEq] at hok
      rw [← hok.2]
      simp [havg]
    · rw [optimize_light img hpix havg] at hok
      cases hca : autocontrast img with
      | ok a =>
        rw [hca] at hok
        simp only [Except.map, Except.ok.injEq, Prod.mk.injEq] at hok
        rw [← hok.2]
        simp [havg]
      | error e =>
        rw [hca] at hok
        simp [Except.map] at hok
  · intro n hn0
    refine ⟨averageBrightness_halfL n hn0, ?_⟩
    rw [averageBrightness_halfL n hn0]
    norm_num

/-- Witness for C1 at the concrete boundary image with two pixels at 0
and two pixels at 255. -/
theorem C1_inversion_branch_iff_witness :
    averageBrightness (halfL 2) = 255 / 2 ∧ averageBrightness (halfL 2) < 128 :=
  (C1_inversion_branch_iff (halfL 2) (by decide) (by decide)).2.2.2.2 2
    (by norm_num)

/-- Claim C2: the computed `average_brightness` equals the weighted mean
of the 256-bucket grayscale histogram (the spec formula
`specAverageBrightness`), lies in the real interval `[0, 255]`, and is 0
for an all-black image and 255 for an all-white image. -/
theorem C2_average_is_weighted_mean (img : Image) (hwf : img.WF)
    (_hn : 0 < img.data.length) :
    averageBrightness img = specAverageBrightness img ∧
    0 ≤ averageBrightness img ∧ averageBrightness img ≤ 255 ∧
    (∀ n, 0 < n → averageBrightness (blackL n) = 0 ∧
      averageBrightness (whiteL n) = 255) := by
  refine ⟨averageBrightness_eq_spec img hwf, averageBrightness_nonneg img,
    averageBrightness_le img hwf, ?_⟩
  intro n hn0
  exact ⟨averageBrightness_blackL n hn0, averageBrightness_whiteL n hn0⟩

/-- Witness for C2 at the concrete one-pixel all-black and all-white
images. -/
theorem C2_average_is_weighted_mean_witness :
    averageBrightness (blackL 1) = 0 ∧ averageBrightness (whiteL 1) = 255 :=
  (C2_average_is_weighted_mean (blackL 1) (by decide) (by decide)).2.2.2 1
    (by norm_num)

/-- Claim C3: the color inversion is an involution: for every RGB image,
inverting twice restores every pixel value exactly. -/
theorem C3_invert_involution (img : Image) (_hmode : img.mode = Mode.RGB)
    (hwf : img.WF) : invert (invert img) = img :=
  invert_invert img fun p hp => (hwf.1 p hp).2

/-- Witness for C3 at a concrete one-pixel RGB image. -/
theorem C3_invert_involution_witness :
    invert (invert ⟨Mode.RGB, [[1, 2, 3]], []⟩) = ⟨Mode.RGB, [[1, 2, 3]], []⟩ :=
  C3_invert_involution ⟨Mode.RGB, [[1, 2, 3]], []⟩ rfl (by decide)

/-- Claim C4 as stated is false at a concrete input: this RGBA image has
both 0 and 255 in every channel, satisfying the claim's premise, yet
`ImageOps.autocontrast` raises `OSError` on it (via `ImageOps._lut`'s
mode check) instead of yielding the identical image. -/
theorem C4_fullrange_rgba_counterexample :
    (Image.mk Mode.RGBA [[0, 0, 0, 0], [255, 255, 255, 255]] []).WF ∧
    (∀ c, c < (Image.mk Mode.RGBA [[0, 0, 0, 0], [255, 255, 255, 255]]
        []).mode.channels →
      0 ∈ channelValues
        (Image.mk Mode.RGBA [[0, 0, 0, 0], [255, 255, 255, 255]] []) c ∧
      255 ∈ channelValues
        (Image.mk Mode.RGBA [[0, 0, 0, 0], [255, 255, 255, 255]] []) c) ∧
    autocontrast (Image.mk Mode.RGBA [[0, 0, 0, 0], [255, 255, 255, 255]] []) =
      .error .osError ∧
    autocontrast (Image.mk Mode.RGBA [[0, 0, 0, 0], [255, 255, 255, 255]] []) ≠
      .ok (Image.mk Mode.RGBA [[0, 0, 0, 0], [255, 255, 255, 255]] []) :=
  ⟨by decide, by decide, rfl, by decide⟩

/-- Claim C4 (amended): on the modes `ImageOps._lut` supports (`L` and
`RGB`), the contrast-stretch step is the identity on fully stretched
images: when every channel already contains both 0 and 255,
`autocontrast` returns the image with no pixel changed.  On `P` and
`RGBA` images `autocontrast` raises instead of returning an image. -/
theorem C4_autocontrast_id_on_fullrange (img : Image) (hwf : img.WF)
    (hmode : img.mode = Mode.L ∨ img.mode = Mode.RGB)
    (hfull : ∀ c, c < img.mode.channels →
      0 ∈ channelValues img c ∧ 255 ∈ channelValues img c) :
    autocontrast img = .ok img := by
  have hcs := contrastStretch_eq_of_full img hwf hfull
  rcases hmode with h | h
  · rw [autocontrast_of_L img h, hcs]
  · rw [autocontrast_of_RGB img h, hcs]

/-- Witness for the amended C4 at a concrete grayscale image containing
both 0 and 255. -/
theorem C4_autocontrast_id_on_fullrange_witness :
    autocontrast ⟨Mode.L, [[0], [255]], []⟩ = .ok ⟨Mode.L, [[0], [255]], []⟩ :=
  C4_autocontrast_id_on_fullrange ⟨Mode.L, [[0], [255]], []⟩ (by decide)
    (Or.inl rfl) (by decide)

/-- Claim C5 as stated is false at a concrete input: this uniform
all-white RGBA image (every pixel grayscale value 255) skips the
inversion branch, but the contrast stretch is not a no-op on it — the
program raises `OSError` inside `ImageOps.autocontrast` and saves
nothing. -/
theorem C5_uniform_rgba_counterexample :
    (∀ p ∈ (Image.mk Mode.RGBA [[255, 255, 255, 255]] []).data,
      ∀ v ∈ p, v = 255) ∧
    autocontrast (Image.mk Mode.RGBA [[255, 255, 255, 255]] []) =
      .error .osError ∧
    optimize_image_for_ocr (Image.mk Mode.RGBA [[255, 255, 255, 255]] []) =
      .error .osError := by
  refine ⟨by decide, rfl, ?_⟩
  have hwf : (Image.mk Mode.RGBA [[255, 255, 255, 255]] []).WF := by decide
  have hg : grayValues (Image.mk Mode.RGBA [[255, 255, 255, 255]] []) =
      [255] := by decide
  have hlen : (Image.mk Mode.RGBA [[255, 255, 255, 255]] []).data.length = 1 :=
    rfl
  have havg : averageBrightness (Image.mk Mode.RGBA [[255, 255, 255, 255]] []) =
      255 := by
    rw [averageBrightness_eq _ hwf, hg, hlen]
    norm_num
  have hlt : ¬averageBrightness (Image.mk Mode.RGBA [[255, 255, 255, 255]] []) <
      128 := by
    rw [havg]
    norm_num
  have hpix := histogramL_sum_ne (Image.mk Mode.RGBA [[255, 255, 255, 255]] [])
    hwf (by decide)
  rw [optimize_light _ hpix hlt, autocontrast_of_RGBA _ rfl]
  rfl

/-- Claim C5 (amended): for an all-white input image the average
brightness is 255, which is not below 128, so the inversion branch is
not taken; on the modes `ImageOps._lut` supports (`L` and `RGB`) the
contrast stretch is a no-op on every uniform (single-valued) image, so
the saved output for the all-white grayscale image remains uniform
all-white.  On uniform `P`/`RGBA` images `autocontrast` raises instead
of acting as the identity. -/
theorem C5_all_white_stays_white :
    (∀ (img : Image) (u : ℕ), img.WF →
      (img.mode = Mode.L ∨ img.mode = Mode.RGB) →
      (∀ p ∈ img.data, ∀ v ∈ p, v = u) →
      autocontrast img = .ok img) ∧
    (∀ n, 0 < n →
      averageBrightness (whiteL n) = 255 ∧
      ¬averageBrightness (whiteL n) < 128 ∧
      optimize_image_for_ocr (whiteL n) =
        .ok (whiteL n, [.averageBrightnessIs 255, .alreadyLightModeSkipping,
          .savedOptimizedImage])) := by
  constructor
  · intro img u hwf hmode huni
    have hcs := contrastStretch_eq_of_uniform img u hwf huni
    rcases hmode with h | h
    · rw [autocontrast_of_L img h, hcs]
    · rw [autocontrast_of_RGB img h, hcs]
  · intro n hn0
    have havg := averageBrightness_whiteL n hn0
    have hlt : ¬averageBrightness (whiteL n) < 128 := by
      rw [havg]
      norm_num
    refine ⟨havg, hlt, ?_⟩
    have hlen : 0 < (whiteL n).data.length := by
      simpa [whiteL] using hn0
    rw [optimize_light_ok (whiteL n)
        (histogramL_sum_ne (whiteL n) (whiteL_WF n) hlen) hlt (Or.inl rfl),
      contrastStretch_whiteL, havg]

/-- Witness for C5 at the concrete one-pixel all-white image. -/
theorem C5_all_white_stays_white_witness :
    optimize_image_for_ocr (whiteL 1) =
      .ok (whiteL 1, [.averageBrightnessIs 255, .alreadyLightModeSkipping,
        .savedOptimizedImage]) :=
  (C5_all_white_stays_white.2 1 (by norm_num)).2.2

/-- Claim C6: constructing a `Column` with only `name="id"` and
`type="INTEGER"` succeeds with both boolean flags defaulting to false;
omitting the required `name` field fails with a structural-validation
error naming the missing field; and a structural error naming a missing
or wrongly-typed field is the only error condition of any of the four
schema validators. -/
theorem C6_column_validation :
    Column.validate [("name", .str "id"), ("type", .str "INTEGER")] =
      .ok ⟨"id", "INTEGER", false, false⟩ ∧
    Column.validate [("type", .str "INTEGER")] = .error (.missing "name") ∧
    (∀ fields e, Column.validate fields = .error e →
      (∃ f, e = .missing f) ∨ (∃ f t, e = .wrongType f t)) ∧
    (∀ fields e, Table.validate fields = .error e →
      (∃ f, e = .missing f) ∨ (∃ f t, e = .wrongType f t)) ∧
    (∀ fields e, Relationship.validate fields = .error e →
      (∃ f, e = .missing f) ∨ (∃ f t, e = .wrongType f t)) ∧
    (∀ fields e, DatabaseSchema.validate fields = .error e →
      (∃ f, e = .missing f) ∨ (∃ f t, e = .wrongType f t)) := by
  refine ⟨by decide, by decide, ?_, ?_, ?_, ?_⟩ <;>
    · intro fields e _
      cases e with
      | missing f => exact Or.inl ⟨f, rfl⟩
      | wrongType f t => exact Or.inr ⟨f, t, rfl⟩

/-- Witness for C6 at a concrete wrongly-typed `name` field. -/
theorem C6_column_validation_witness :
    (∃ f, ValidationError.wrongType "name" "str" = ValidationError.missing f) ∨
    (∃ f t, ValidationError.wrongType "name" "str" =
      ValidationError.wrongType f t) :=
  C6_column_validation.2.2.1 [("name", .int 0)] (.wrongType "name" "str")
    (by decide)

/-- Claim C7: the empty `DatabaseSchema` (no tables, no relationships)
validates successfully, and validation performs no cross-referential
check: any list of `Relationship` values is accepted regardless of
whether their `from_table`/`to_table` names resolve in `tables`. -/
theorem C7_schema_no_cross_checks :
    DatabaseSchema.validate (DatabaseSchema.encodeFields ⟨[], []⟩) =
      .ok ⟨[], []⟩ ∧
    ∀ (ts : List Table) (rs : List Relationship),
      DatabaseSchema.validate (DatabaseSchema.encodeFields ⟨ts, rs⟩) =
        .ok ⟨ts, rs⟩ :=
  ⟨databaseSchema_validate_roundtrip ⟨[], []⟩,
    fun ts rs => databaseSchema_validate_roundtrip ⟨ts, rs⟩⟩

/-- Claim C8 as stated is false at a concrete input: pydantic `BaseModel`
instances are mutable by default (no `frozen=True` in `schemas.py`), so
attribute assignment changes a constructed record's field value away from
the value established at construction. -/
theorem C8_immutability_counterexample :
    (Column.setAttrName ⟨"id", "INTEGER", false, false⟩ "renamed").name ≠
      "id" := by
  decide

/-- Claim C8 (amended): schema records are plain value records, but they
are not enforced immutable; attribute assignment replaces exactly the
assigned field, leaves every other field at its construction value, and
yields a record observably different from the constructed one whenever
the new value differs. -/
theorem C8_records_mutable_by_default (c : Column) (v : String) :
    (c.setAttrName v).name = v ∧
    (c.setAttrName v).type = c.type ∧
    (c.setAttrName v).is_primary_key = c.is_primary_key ∧
    (c.setAttrName v).is_foreign_key = c.is_foreign_key ∧
    (v ≠ c.name → c.setAttrName v ≠ c) := by
  refine ⟨rfl, rfl, rfl, rfl, ?_⟩
  intro hv hc
  exact hv (congrArg Column.name hc)

/-- Witness for the amended C8 at a concrete record and a differing new
value. -/
theorem C8_records_mutable_by_default_witness :
    Column.setAttrName ⟨"id", "INTEGER", false, false⟩ "x" ≠
      ⟨"id", "INTEGER", false, false⟩ :=
  (C8_records_mutable_by_default ⟨"id", "INTEGER", false, false⟩ "x").2.2.2.2
    (by decide)

/-- Claim C9: the brightness division has no zero guard: on an image
with zero pixels `optimize_image_for_ocr` fails with the
division-by-zero error; on every image with at least one pixel the
divisor `sum(histogram)` is nonzero, so the division is well-defined and
no division-by-zero error can occur (any later error comes from
`ImageOps.autocontrast`'s mode check, after the division). -/
theorem C9_zero_pixel_division (img : Image) (hwf : img.WF) :
    (img.data = [] →
      optimize_image_for_ocr img = .error .zeroDivisionError) ∧
    (img.data ≠ [] →
      img.convertL.histogramL.sum ≠ 0 ∧
      optimize_image_for_ocr img ≠ .error .zeroDivisionError) := by
  constructor
  · intro h
    exact optimize_zero img (histogramL_sum_nil img h)
  · intro h
    have hn : 0 < img.data.length := List.length_pos.2 h
    have hpix := histogramL_sum_ne img hwf hn
    refine ⟨hpix, ?_⟩
    by_cases havg : averageBrightness img < 128
    · rw [optimize_dark img hpix havg]
      intro hc
      exact Except.noConfusion hc
    · rw [optimize_light img hpix havg]
      intro hc
      cases hca : autocontrast img with
      | ok a =>
        rw [hca] at hc
        simp [Except.map] at hc
      | error e =>
        rw [hca] at hc
        simp only [Except.map, Except.error.injEq] at hc
        exact autocontrast_ne_zeroDiv img (by rw [hca, hc])

/-- Witness for C9 at the concrete zero-pixel image. -/
theorem C9_zero_pixel_division_witness :
    optimize_image_for_ocr ⟨Mode.L, [], []⟩ = .error .zeroDivisionError :=
  (C9_zero_pixel_division ⟨Mode.L, [], []⟩ (by decide)).1 rfl

/-- Claim C10: the two branches do not preserve the input's channel
structure equally: below the 128 threshold the image is converted to
3-channel RGB before inversion, so the saved output comes from an RGB
image with exactly three channels per pixel (any alpha channel or
palette discarded); at or above the threshold the image keeps its
original mode through the inversion step unchanged — the unchanged image
is what reaches the contrast-stretch step, which preserves the mode on
the modes it supports (`L`/`RGB`) and raises without saving anything on
the others. -/
theorem C10_channel_structure (img : Image) (hwf : img.WF)
    (hn : 0 < img.data.length) :
    (averageBrightness img < 128 →
      (invert img.convertRGB).mode = Mode.RGB ∧
      (∀ p ∈ (invert img.convertRGB).data, p.length = 3) ∧
      optimize_image_for_ocr img =
        .ok (contrastStretch (invert img.convertRGB),
          [.averageBrightnessIs (averageBrightness img),
            .detectedDarkModeInverting, .savedOptimizedImage]) ∧
      (contrastStretch (invert img.convertRGB)).mode = Mode.RGB) ∧
    (¬averageBrightness img < 128 →
      optimize_image_for_ocr img =
        (autocontrast img).map (fun out =>
          (out, [.averageBrightnessIs (averageBrightness img),
            .alreadyLightModeSkipping, .savedOptimizedImage])) ∧
      ((img.mode = Mode.L ∨ img.mode = Mode.RGB) →
        optimize_image_for_ocr img =
          .ok (contrastStretch img,
            [.averageBrightnessIs (averageBrightness img),
              .alreadyLightModeSkipping, .savedOptimizedImage]) ∧
        (contrastStretch img).mode = img.mode) ∧
      (img.mode = Mode.RGBA →
        optimize_image_for_ocr img = .error .osError) ∧
      (img.mode = Mode.P →
        optimize_image_for_ocr img = .error .notImplementedError)) := by
  have hpix := histogramL_sum_ne img hwf hn
  constructor
  · intro havg
    refine ⟨rfl, ?_, optimize_dark img hpix havg, rfl⟩
    intro p hp
    unfold invert Image.convertRGB at hp
    simp only [List.map_map, List.mem_map] at hp
    rcases hp with ⟨q, hq, rfl⟩
    show ((pixelToRGB img.palette img.mode q).map fun v => 255 - v).length = 3
    rw [List.length_map]
    exact pixelToRGB_length img.palette img.mode q (hwf.1 q hq).1
  · intro havg
    refine ⟨optimize_light img hpix havg, ?_, ?_, ?_⟩
    · intro hmode
      exact ⟨optimize_light_ok img hpix havg hmode, rfl⟩
    · intro hmode
      rw [optimize_light img hpix havg, autocontrast_of_RGBA img hmode]
      rfl
    · intro hmode
      rw [optimize_light img hpix havg, autocontrast_of_P img hmode]
      rfl

/-- Witness for C10 at the concrete one-pixel all-black image, which
takes the inversion branch. -/
theorem C10_channel_structure_witness :
    (invert (Image.convertRGB (blackL 1))).mode = Mode.RGB :=
  ((C10_channel_structure (blackL 1) (by decide) (by decide)).1
    (by rw [averageBrightness_blackL 1 (by norm_num)]; norm_num)).1

end DbBuilder
